import Mathlib

/-!
Verification of the HaRaaS server (a Parse-Server deployment wrapper).

The repository's own code is the cloud-function layer
(`src/server/cloud/main.js`, `src/server/cloud/api/login.js`) plus the
server configuration (`src/server/server.js`).  The object-storage /
live-query core the specification describes is configured here but not
implemented in the repository; those parts are modelled from the spec,
each such definition carrying a doc comment starting `Modelled from the
spec:`.  Everything translated from repository source names the file and
symbol it embeds.
-/

set_option maxHeartbeats 1600000

/-! ## JavaScript string primitives used by the cloud functions -/

/-- JavaScript `\s` whitespace class, by code point. -/
def isJsSpace (c : Char) : Bool :=
  c.toNat = 9 || c.toNat = 10 || c.toNat = 11 || c.toNat = 12 || c.toNat = 13 ||
  c.toNat = 32 || c.toNat = 0xa0 || c.toNat = 0x1680 ||
  (0x2000 ≤ c.toNat && c.toNat ≤ 0x200a) ||
  c.toNat = 0x2028 || c.toNat = 0x2029 || c.toNat = 0x202f || c.toNat = 0x205f ||
  c.toNat = 0x3000 || c.toNat = 0xfeff

/-- A character admissible in the `[^\s@]` classes of the email regex
`^[^\s@]+@[^\s@]+\.[^\s@]+$` of `src/server/cloud/api/login.js`. -/
def okEmailChar (c : Char) : Bool := !(isJsSpace c) && c ≠ '@'

/-- Consume one or more `[^\s@]` characters followed by a literal `@`;
return the remaining characters.  Since `@` is excluded from the class,
the split point is forced, so this deterministic scan is exactly the
regex's local part. -/
def eatLocalPart : List Char → Option (List Char)
  | [] => none
  | [_] => none
  | c :: d :: ds =>
    if okEmailChar c then
      if d = '@' then some ds else eatLocalPart (d :: ds)
    else none

/-- Is there a `.` at a non-final position of the list? -/
def dotNotLast : List Char → Bool
  | [] => false
  | [_] => false
  | c :: d :: rest => c = '.' || dotNotLast (d :: rest)

/-- `dom` matches `[^\s@]+\.[^\s@]+` iff every character is in the class
and some `.` occurs at an interior position (at least one character on
each side; the class itself admits `.`). -/
def domainOk (dom : List Char) : Bool :=
  dom.all okEmailChar &&
    (match dom with
     | [] => false
     | _ :: rest => dotNotLast rest)

/-- The email validation of `registerUser` / `loginUser`
(`src/server/cloud/api/login.js`): the regex
`^[^\s@]+@[^\s@]+\.[^\s@]+$` applied with `test`. -/
def validEmail (s : String) : Bool :=
  match eatLocalPart s.data with
  | none => false
  | some dom => domainOk dom

/-- JavaScript `String.prototype.toLowerCase` (ASCII case mapping, which
covers the e-mail addresses the cloud code handles). -/
def jsToLower (s : String) : String := String.mk (s.data.map Char.toLower)

/-- JavaScript `String.prototype.trim`: strip `\s` from both ends. -/
def jsTrim (s : String) : String :=
  String.mk (((s.data.dropWhile isJsSpace).reverse.dropWhile isJsSpace).reverse)

/-- JavaScript falsiness of an optional string argument: `undefined`
(`none`) and the empty string are falsy, every other string truthy.
Mirrors checks such as `if (!firstName || ...)`. -/
def falsyStr : Option String → Bool
  | none => true
  | some s => s = ""

/-- The pointwise relation "same lower-cased character". -/
def lowEq (a b : Char) : Prop := a.toLower = b.toLower

/-! ## Query evaluator

Modelled from the spec: the repository configures the framework's query
engine (`src/server/server.js`, live-query settings) but does not
implement it; §4.3 of the spec describes the contract
`compile(constraintTree) -> Predicate`, `Predicate.matches(object) ->
bool`, with `find` delegating the same semantics to the backend. -/

/-- A stored field value of a semi-structured document. -/
inductive Value where
  | vNull
  | vBool (b : Bool)
  | vNum (n : Int)
  | vStr (s : String)
  | vDate (t : Nat)
  | vPtr (cls : String) (id : Nat)
deriving DecidableEq, Repr

/-- A document is a field-name → value map (association list). -/
abbrev Obj := List (String × Value)

/-- Field access on a document. -/
def getField (o : Obj) (f : String) : Option Value :=
  (o.find? (fun kv => kv.1 = f)).map (fun kv => kv.2)

/-- Modelled from the spec: one node of the immutable constraint tree —
"conjunction of field comparisons: equals, range, set-membership,
existence" (§3, Query).  Type-mismatched comparisons evaluate to
non-match rather than raising (§4.3). -/
inductive Constraint where
  | ceq (f : String) (v : Value)
  | clt (f : String) (n : Int)
  | cle (f : String) (n : Int)
  | cgt (f : String) (n : Int)
  | cge (f : String) (n : Int)
  | cin (f : String) (vs : List Value)
  | chas (f : String) (b : Bool)
deriving DecidableEq, Repr

/-- Modelled from the spec: a Query is a constraint conjunction plus
ordering and pagination parameters (§3); ordering/pagination are outside
the result-set identity, which is stated "modulo pagination". -/
structure Query where
  clauses : List Constraint
  skip : Nat
  limit : Option Nat
deriving Repr

/-- Evaluate a single comparison against a document; a missing field or
a type-mismatched value is a non-match. -/
def evalC : Constraint → Obj → Bool
  | .ceq f v, o => getField o f = some v
  | .clt f n, o => match getField o f with
      | some (.vNum m) => m < n
      | _ => false
  | .cle f n, o => match getField o f with
      | some (.vNum m) => m ≤ n
      | _ => false
  | .cgt f n, o => match getField o f with
      | some (.vNum m) => n < m
      | _ => false
  | .cge f n, o => match getField o f with
      | some (.vNum m) => n ≤ m
      | _ => false
  | .cin f vs, o => match getField o f with
      | some v => vs.contains v
      | none => false
  | .chas f b, o => (getField o f).isSome = b

/-- A compiled predicate. -/
def Predicate := Obj → Bool

/-- `Predicate.matches(object) -> bool` (§4.3). -/
def Predicate.matches (p : Predicate) (o : Obj) : Bool := p o

/-- Modelled from the spec: `compile(constraintTree) -> Predicate`
(§4.3) — the in-memory predicate handed to the Live Query Hub, built by
closure composition over the clause list. -/
def compile (q : Query) : Predicate :=
  q.clauses.foldr (fun c p => fun o => evalC c o && p o) (fun _ => true)

/-- Modelled from the spec: the backend-delegated clause evaluation the
store runs while filtering persisted documents (early-exit conjunction).
-/
def evalClauses : List Constraint → Obj → Bool
  | [], _ => true
  | c :: cs, o => if evalC c o then evalClauses cs o else false

/-- Pagination applied after filtering. -/
def paginate (skip : Nat) (limit : Option Nat) (l : List Obj) : List Obj :=
  match limit with
  | none => l.drop skip
  | some n => (l.drop skip).take n

/-- Modelled from the spec: `find(className, query)` filters the stored
documents through the backend evaluation and applies pagination (§4.2,
§4.3). -/
def find (store : List Obj) (q : Query) : List Obj :=
  paginate q.skip q.limit (store.filter (evalClauses q.clauses))

/-! ## Schema registry

Modelled from the spec: the repository only configures schema behaviour
(`allowClientClassCreation` in `src/server/server.js`); §4.1 describes
`validateWrite(className, proposedFields) -> {acceptedFields} |
SchemaError` with first-write type inference and `SchemaConflict` on an
incompatible subsequent write. -/

/-- Inferred field types of the schema registry. -/
inductive FieldType where
  | tString
  | tBoolean
  | tNumber
  | tDate
  | tPointer
  | tNull
deriving DecidableEq, Repr

/-- The type inferred from a supplied value on first write (§4.1). -/
def typeOfValue : Value → FieldType
  | .vNull => .tNull
  | .vBool _ => .tBoolean
  | .vNum _ => .tNumber
  | .vStr _ => .tString
  | .vDate _ => .tDate
  | .vPtr _ _ => .tPointer

/-- field name → registered type, per class. -/
abbrev Schema := List (String × FieldType)

inductive SchemaError where
  | SchemaConflict
deriving DecidableEq, Repr

def lookupType (sch : Schema) (f : String) : Option FieldType :=
  (sch.find? (fun kv => kv.1 = f)).map (fun kv => kv.2)

/-- Modelled from the spec: `validateWrite` (§4.1) — infer and register
unseen fields, reject a value whose type conflicts with the registered
type. -/
def validateWrite : Schema → List (String × Value) → Except SchemaError Schema
  | sch, [] => .ok sch
  | sch, (f, v) :: rest =>
    match lookupType sch f with
    | some t =>
      if typeOfValue v = t then validateWrite sch rest
      else .error .SchemaConflict
    | none => validateWrite (sch ++ [(f, typeOfValue v)]) rest

/-- Per-class store state: the evolved schema plus the persisted
objects and the id counter. -/
structure ClassState where
  schema : Schema
  objects : List (Nat × Obj)
  nextId : Nat
deriving DecidableEq, Repr

/-- Modelled from the spec: a create runs `validateWrite` first; on
error nothing is persisted and the state is returned unchanged (§7). -/
def applyCreate (cs : ClassState) (fields : List (String × Value)) :
    ClassState × Except SchemaError Nat :=
  match validateWrite cs.schema fields with
  | .error e => (cs, .error e)
  | .ok sch2 =>
      (⟨sch2, cs.objects ++ [(cs.nextId, fields)], cs.nextId + 1⟩, .ok cs.nextId)

/-! ## Session resolver

Modelled from the spec: the repository sets `sessionLength: 24 * 60 *
60` in `src/server/server.js` but the resolver itself is framework
code; §4.5 and §3 (Session) describe token-keyed records with an expiry
timestamp and a lazy expiry check. -/

structure Session where
  token : String
  userId : Nat
  roles : List String
  expiresAt : Nat
deriving DecidableEq, Repr

inductive SessionError where
  | Invalid
  | Expired
deriving DecidableEq, Repr

inductive AuthError where
  | Expired
  | BadCredentials
deriving DecidableEq, Repr

/-- The session length the repository configures
(`src/server/server.js`: `sessionLength: 24 * 60 * 60`). -/
def sessionLength : Nat := 24 * 60 * 60

def lookupSession (sessions : List Session) (tok : String) : Option Session :=
  sessions.find? (fun s => s.token = tok)

/-- Modelled from the spec: `resolve(token) -> Identity | SessionError`
(§4.5): unknown token ↦ `Invalid`, token past its expiry ↦ `Expired`.
The check is read-only — nothing is swept. -/
def resolveSession (sessions : List Session) (tok : String) (now : Nat) :
    Except SessionError Session :=
  match lookupSession sessions tok with
  | none => .error .Invalid
  | some s => if s.expiresAt ≤ now then .error .Expired else .ok s

/-- Outcome of an authenticated operation. -/
inductive OpResult (α : Type) where
  | ok (a : α)
  | authError (e : AuthError)
  | sessionInvalid
deriving DecidableEq, Repr

/-- Modelled from the spec: every operation presenting a session token
first resolves it; an `Expired` resolution aborts the operation with
`AuthError(Expired)` and the session table is left untouched (lazy
expiry, §3/§4.5). -/
def runWithSession {α : Type} (sessions : List Session) (tok : String) (now : Nat)
    (body : Session → α × List Session) : OpResult α × List Session :=
  match resolveSession sessions tok now with
  | .error .Invalid => (.sessionInvalid, sessions)
  | .error .Expired => (.authError .Expired, sessions)
  | .ok s =>
    let (a, sessions2) := body s
    (.ok a, sessions2)

/-! ## Hook dispatcher (after-hooks)

The repository registers after-hooks (`Parse.Cloud.afterLogin` in
`src/server/cloud/main.js`); the dispatcher that isolates their
failures is framework code, modelled from the spec (§4.6):
`invokeAfter(event, context)` is fire-and-forget, errors logged, never
propagated. -/

/-- Result of running one after-hook handler body. -/
inductive HookOutcome where
  | success
  | failure (msg : String)
deriving DecidableEq, Repr

structure LogEntry where
  message : String
deriving DecidableEq, Repr

/-- Modelled from the spec: `invokeAfter` (§4.6) — run every handler,
collect a log entry for each failure, surface nothing. -/
def invokeAfter {Ctx : Type} (handlers : List (Ctx → HookOutcome)) (ctx : Ctx) :
    List LogEntry :=
  handlers.filterMap (fun h =>
    match h ctx with
    | .success => none
    | .failure m => some ⟨m⟩)

/-- Modelled from the spec: an operation followed by its after-hooks —
the hooks run only once the operation has committed, and their outcome
is not part of the operation's result (§4.6, §7). -/
def runOpWithAfterHooks {Cred Res : Type} (doOp : Cred → Except AuthError Res)
    (hooks : List (Res → HookOutcome)) (cred : Cred) :
    Except AuthError Res × List LogEntry :=
  match doOp cred with
  | .error e => (.error e, [])
  | .ok r => (.ok r, invokeAfter hooks r)

/-! ## Store-owned timestamps

The cited `beforeSave('TestObject')` hook (`src/server/cloud/main.js`)
itself writes an `updatedAt` field; the store's handling of the
reserved keys is framework code, modelled from the spec (§3, Object):
created-at/updated-at are "monotonic, set by the store, never
client-writable". -/

/-- The reserved timestamp keys. -/
def reservedTimeKey (k : String) : Bool := k = "createdAt" || k = "updatedAt"

/-- A persisted document: identifier, client fields, store-owned
timestamps. -/
structure Doc where
  objectId : Nat
  fields : Obj
  createdAt : Nat
  updatedAt : Nat
deriving DecidableEq, Repr

/-- Set (replace-or-append) a field of a document's field map. -/
def setField (o : Obj) (f : String) (v : Value) : Obj :=
  if (o.find? (fun kv => kv.1 = f)).isSome then
    o.map (fun kv => if kv.1 = f then (f, v) else kv)
  else o ++ [(f, v)]

/-- Apply a patch (field-by-field overwrite) to a field map. -/
def applyPatch (patch : Obj) (fields : Obj) : Obj :=
  patch.foldl (fun acc kv => setField acc kv.1 kv.2) fields

/-- Modelled from the spec: object creation — the identifier is
assigned at creation, both timestamps are read off the store clock, and
any supplied value under a reserved key is discarded (§3). -/
def storeCreateDoc (now : Nat) (id : Nat) (clientFields : Obj) : Doc :=
  { objectId := id
    fields := clientFields.filter (fun kv => !reservedTimeKey kv.1)
    createdAt := now
    updatedAt := now }

/-- Modelled from the spec: object update — the patch is applied with
reserved keys stripped, `updatedAt` is set from the store clock,
`createdAt` is untouched (§3). -/
def storeUpdateDoc (now : Nat) (d : Doc) (patch : Obj) : Doc :=
  { d with
    fields := applyPatch (patch.filter (fun kv => !reservedTimeKey kv.1)) d.fields
    updatedAt := now }

/-- The `Parse.Cloud.beforeSave('TestObject')` hook of
`src/server/cloud/main.js`: on a fresh object with a requesting user it
sets `createdBy`, and it always sets an `updatedAt` field with the
hook's own clock reading. -/
def testObjectBeforeSave (requestUser : Option Nat) (existed : Bool) (hookNow : Nat)
    (fields : Obj) : Obj :=
  let f1 :=
    if !existed then
      match requestUser with
      | some uid => setField fields "createdBy" (.vPtr "_User" uid)
      | none => fields
    else fields
  setField f1 "updatedAt" (.vDate hookNow)

/-! ## Live Query Hub

The repository enables the live-query layer for class `TestObject`
(`src/server/server.js`: `liveQuery.classNames` and
`ParseServer.createLiveQueryServer`); the hub itself is framework code,
modelled from the spec (§4.7 state machine, §4.2 change
notifications). -/

inductive ChangeKind where
  | ckCreate
  | ckUpdate
  | ckDelete
deriving DecidableEq, Repr

/-- Modelled from the spec: the change notification the store emits on
every successful mutation (§4.2): class, event kind, before/after
state. -/
structure Change where
  className : String
  kind : ChangeKind
  objectId : Nat
  beforeState : Option Obj
  afterState : Option Obj
deriving DecidableEq, Repr

/-- Canonical store state of one class: documents keyed by identifier,
plus the id allocator. -/
structure StoreSt where
  docs : List (Nat × Obj)
  nextId : Nat
deriving DecidableEq, Repr

inductive Mutation where
  | mCreate (fields : Obj)
  | mUpdate (id : Nat) (patch : Obj)
  | mDelete (id : Nat)
deriving DecidableEq, Repr

def lookupDoc (docs : List (Nat × Obj)) (id : Nat) : Option Obj :=
  (docs.find? (fun p => p.1 = id)).map (fun p => p.2)

/-- Modelled from the spec: the store's mutation step (§4.2) — create
assigns the next fresh identifier, update patches in place, delete
removes the document with no tombstone kept (§3); each successful
mutation emits one change notification. -/
def stepStore (cls : String) (st : StoreSt) : Mutation → StoreSt × Option Change
  | .mCreate fields =>
    (⟨st.docs ++ [(st.nextId, fields)], st.nextId + 1⟩,
      some ⟨cls, .ckCreate, st.nextId, none, some fields⟩)
  | .mUpdate id patch =>
    match lookupDoc st.docs id with
    | none => (st, none)
    | some o =>
      (⟨st.docs.map (fun p => if p.1 = id then (id, applyPatch patch o) else p), st.nextId⟩,
        some ⟨cls, .ckUpdate, id, some o, some (applyPatch patch o)⟩)
  | .mDelete id =>
    match lookupDoc st.docs id with
    | none => (st, none)
    | some o =>
      (⟨st.docs.filter (fun p => p.1 ≠ id), st.nextId⟩,
        some ⟨cls, .ckDelete, id, some o, none⟩)

/-- The change feed produced by running a mutation list. -/
def feedOf (cls : String) (st : StoreSt) : List Mutation → List Change
  | [] => []
  | m :: ms =>
    ((stepStore cls st m).2.toList) ++ feedOf cls (stepStore cls st m).1 ms

inductive EventKind where
  | Enter
  | Update
  | Leave
deriving DecidableEq, Repr

/-- Modelled from the spec: a subscription pairs a compiled predicate
and the subscribing identity's ACL test (§3 Subscription, §4.7). -/
structure Subscription where
  className : String
  pred : Obj → Bool
  allowed : Obj → Bool

/-- Modelled from the spec: the §4.7 classification — re-check ACL, re-run
the predicate on before/after state, and emit `Enter` / `Update` /
`Leave`; deletion of a previously-matching object yields `Leave`; an
ACL denial after a previous match also yields `Leave`. -/
def classify (sub : Subscription) (ch : Change) : Option EventKind :=
  if sub.className ≠ ch.className then none
  else
    match ch.kind, ch.beforeState, ch.afterState with
    | .ckDelete, some b, _ =>
      if sub.pred b && sub.allowed b then some .Leave else none
    | _, mb, some a =>
      let matchedBefore :=
        match mb with
        | some b => sub.pred b && sub.allowed b
        | none => false
      if !sub.allowed a then
        if matchedBefore then some .Leave else none
      else
        match matchedBefore, sub.pred a with
        | false, true => some .Enter
        | true, true => some .Update
        | true, false => some .Leave
        | false, false => none
    | _, _, none => none

/-- The event stream one subscription receives from a change feed: at
most one event per change (`classify` is an `Option`). -/
def eventsFor (sub : Subscription) (feed : List Change) : List (Nat × EventKind) :=
  feed.filterMap (fun ch => (classify sub ch).map (fun e => (ch.objectId, e)))

/-- Store well-formedness: every stored identifier is below the
allocator, so fresh identifiers are never reused. -/
def wfStore (st : StoreSt) : Prop := ∀ p ∈ st.docs, p.1 < st.nextId

/-! ## Cloud functions of `src/server/cloud/api/login.js` -/

/-- The `Parse.Error` codes the cloud functions use. -/
inductive ParseErrorCode where
  | INVALID_QUERY
  | INVALID_EMAIL_ADDRESS
  | EMAIL_TAKEN
  | USERNAME_TAKEN
  | OBJECT_NOT_FOUND
  | INVALID_SESSION_TOKEN
  | INTERNAL_SERVER_ERROR
deriving DecidableEq, Repr

structure ParseError where
  code : ParseErrorCode
  message : String
deriving DecidableEq, Repr

/-- A `_User` row with the attributes the cloud functions read and
write. -/
structure UserRec where
  id : Nat
  username : String
  email : String
  password : String
  firstName : String
  lastName : String
  displayName : String
  phone : Option String
  emailVerified : Bool
  isActive : Bool
  registrationDate : Nat
  lastLogin : Nat
deriving DecidableEq, Repr

/-- The user table plus allocators for ids and session tokens. -/
structure UserStore where
  users : List UserRec
  nextId : Nat
  nextTokenSeed : Nat
deriving DecidableEq, Repr

def mkSessionToken (seed : Nat) : String := "r:" ++ toString seed

def findUserByEmail (st : UserStore) (e : String) : Option UserRec :=
  st.users.find? (fun u => u.email = e)

def findUserByUsername (st : UserStore) (uname : String) : Option UserRec :=
  st.users.find? (fun u => u.username = uname)

/-- Modelled from the spec: `Parse.User.signUp` — persist the user in
the reserved user class and issue a fresh session token; the framework
keeps the login identifier unique, so a duplicate username is rejected
before anything is written (§3 User, §4.5). -/
def parseSignUp (st : UserStore) (u : UserRec) :
    Except ParseError (UserRec × String) × UserStore :=
  match findUserByUsername st u.username with
  | some _ =>
    (.error ⟨.USERNAME_TAKEN, "Account already exists for this username."⟩, st)
  | none =>
    let saved := { u with id := st.nextId }
    (.ok (saved, mkSessionToken st.nextTokenSeed),
      ⟨st.users ++ [saved], st.nextId + 1, st.nextTokenSeed + 1⟩)

/-- Modelled from the spec: `Parse.User.logIn(username, password)` —
resolve the unique account registered under the identifier and check
the secret (§6: `login(identifier, secret) -> Session | AuthError`). -/
def parseLogIn (st : UserStore) (uname password : String) :
    Except ParseError (UserRec × String) × UserStore :=
  match findUserByUsername st uname with
  | none => (.error ⟨.OBJECT_NOT_FOUND, "Invalid username/password."⟩, st)
  | some u =>
    if u.password = password then
      (.ok (u, mkSessionToken st.nextTokenSeed),
        { st with nextTokenSeed := st.nextTokenSeed + 1 })
    else (.error ⟨.OBJECT_NOT_FOUND, "Invalid username/password."⟩, st)

/-- Modelled from the spec: `user.save(null, { useMasterKey: true })` —
replace the row with the same identifier. -/
def saveUser (st : UserStore) (u : UserRec) : UserStore :=
  { st with users := st.users.map (fun v => if v.id = u.id then u else v) }

/-- A value of the JSON payload a cloud function returns. -/
inductive RespVal where
  | rStr (s : String)
  | rNum (n : Nat)
  | rBool (b : Bool)
  | rUndef
deriving DecidableEq, Repr

/-- The `{ success, message, user }` object the cloud functions return;
the user payload is kept as the literal key/value list the source
builds. -/
structure CloudResponse where
  success : Bool
  message : String
  user : List (String × RespVal)
deriving DecidableEq, Repr

structure RegisterParams where
  firstName : Option String
  lastName : Option String
  email : Option String
  phone : Option String
  password : Option String
deriving DecidableEq, Repr

/-- `if (phone) user.set('phone', phone.trim())` of `registerUser`: a
falsy phone argument leaves the field unset. -/
def registerPhone : Option String → Option String
  | some ph => if ph = "" then none else some (jsTrim ph)
  | none => none

/-- The `registerUser` cloud function
(`src/server/cloud/api/login.js`): required-field check, email-regex
check, password-length check, duplicate-email check, then `signUp` and
the sanitized response payload. -/
def registerUser (st : UserStore) (p : RegisterParams) (now : Nat) :
    Except ParseError CloudResponse × UserStore :=
  if falsyStr p.firstName || falsyStr p.lastName || falsyStr p.email ||
      falsyStr p.password then
    (.error ⟨.INVALID_QUERY,
      "Missing required fields: firstName, lastName, email, password"⟩, st)
  else
    match p.firstName, p.lastName, p.email, p.password with
    | some fn, some ln, some e, some pw =>
      if validEmail e then
        if pw.length < 6 then
          (.error ⟨.INVALID_QUERY, "Password must be at least 6 characters long"⟩, st)
        else
          match findUserByEmail st (jsToLower e) with
          | some _ =>
            (.error ⟨.EMAIL_TAKEN, "An account with this email already exists"⟩, st)
          | none =>
            let newUser : UserRec :=
              { id := 0
                username := jsToLower e
                email := jsToLower e
                password := pw
                firstName := jsTrim fn
                lastName := jsTrim ln
                displayName := jsTrim fn ++ " " ++ jsTrim ln
                phone := registerPhone p.phone
                emailVerified := false
                isActive := true
                registrationDate := now
                lastLogin := now }
            match parseSignUp st newUser with
            | (.error err, st2) => (.error err, st2)
            | (.ok (saved, tok), st2) =>
              (.ok
                { success := true
                  message := "User registered successfully"
                  user :=
                    [("id", .rNum saved.id),
                     ("username", .rStr saved.username),
                     ("email", .rStr saved.email),
                     ("firstName", .rStr saved.firstName),
                     ("lastName", .rStr saved.lastName),
                     ("displayName", .rStr saved.displayName),
                     ("phone",
                       match saved.phone with
                       | some ph => .rStr ph
                       | none => .rUndef),
                     ("emailVerified", .rBool saved.emailVerified),
                     ("sessionToken", .rStr tok)] }, st2)
      else (.error ⟨.INVALID_EMAIL_ADDRESS, "Invalid email format"⟩, st)
    | _, _, _, _ =>
      (.error ⟨.INTERNAL_SERVER_ERROR, "Registration failed. Please try again."⟩, st)

structure LoginParams where
  email : Option String
  password : Option String
  rememberMe : Option Bool
deriving DecidableEq, Repr

/-- The `loginUser` cloud function (`src/server/cloud/api/login.js`):
required-field check, email-regex check, `Parse.User.logIn` on the
lower-cased email, `lastLogin` refresh and save, then the response
payload; the catch block rewrites `OBJECT_NOT_FOUND` to a friendlier
message. -/
def loginUser (st : UserStore) (p : LoginParams) (now : Nat) :
    Except ParseError CloudResponse × UserStore :=
  if falsyStr p.email || falsyStr p.password then
    (.error ⟨.INVALID_QUERY, "Email and password are required"⟩, st)
  else
    match p.email, p.password with
    | some e, some pw =>
      if validEmail e then
        match parseLogIn st (jsToLower e) pw with
        | (.error err, st2) =>
          if err.code = .OBJECT_NOT_FOUND then
            (.error ⟨.OBJECT_NOT_FOUND, "Invalid email or password"⟩, st2)
          else (.error err, st2)
        | (.ok (u, tok), st2) =>
          let u2 := { u with lastLogin := now }
          (.ok
            { success := true
              message := "Login successful"
              user :=
                [("id", .rNum u2.id),
                 ("username", .rStr u2.username),
                 ("email", .rStr u2.email),
                 ("firstName", .rStr u2.firstName),
                 ("lastName", .rStr u2.lastName),
                 ("displayName", .rStr u2.displayName),
                 ("phone",
                   match u2.phone with
                   | some ph => .rStr ph
                   | none => .rUndef),
                 ("emailVerified", .rBool u2.emailVerified),
                 ("lastLogin", .rNum u2.lastLogin),
                 ("sessionToken", .rStr tok)] }, saveUser st2 u2)
      else (.error ⟨.INVALID_EMAIL_ADDRESS, "Invalid email format"⟩, st)
    | _, _ =>
      (.error ⟨.INTERNAL_SERVER_ERROR, "Login failed. Please try again."⟩, st)

structure UpdateProfileParams where
  firstName : Option String
  lastName : Option String
  phone : Option String
deriving DecidableEq, Repr

/-- The field updates `updateUserProfile` performs on the authenticated
user (`src/server/cloud/api/login.js`): trim-and-set each supplied
parameter, and recompute `displayName` when `firstName` or `lastName`
was supplied. -/
def applyProfileUpdate (u : UserRec) (p : UpdateProfileParams) : UserRec :=
  let u1 := match p.firstName with
    | some s => { u with firstName := jsTrim s }
    | none => u
  let u2 := match p.lastName with
    | some s => { u1 with lastName := jsTrim s }
    | none => u1
  let u3 := match p.phone with
    | some s => { u2 with phone := some (jsTrim s) }
    | none => u2
  if p.firstName.isSome || p.lastName.isSome then
    let newFirstName := match p.firstName with
      | some s => jsTrim s
      | none => u.firstName
    let newLastName := match p.lastName with
      | some s => jsTrim s
      | none => u.lastName
    { u3 with displayName := newFirstName ++ " " ++ newLastName }
  else u3

/-- The `updateUserProfile` cloud function
(`src/server/cloud/api/login.js`): reject a missing session, apply the
profile updates, save, and return the payload together with the saved
row. -/
def updateUserProfile (requestUser : Option UserRec) (p : UpdateProfileParams) :
    Except ParseError (CloudResponse × UserRec) :=
  match requestUser with
  | none => .error ⟨.INVALID_SESSION_TOKEN, "No user session found"⟩
  | some u =>
    let saved := applyProfileUpdate u p
    .ok
      ({ success := true
         message := "Profile updated successfully"
         user :=
           [("id", .rNum saved.id),
            ("username", .rStr saved.username),
            ("email", .rStr saved.email),
            ("firstName", .rStr saved.firstName),
            ("lastName", .rStr saved.lastName),
            ("displayName", .rStr saved.displayName),
            ("phone",
              match saved.phone with
              | some ph => .rStr ph
              | none => .rUndef),
            ("emailVerified", .rBool saved.emailVerified)] }, saved)

/-- Is an `Except` result an error? -/
def exceptIsError {ε α : Type} : Except ε α → Bool
  | .error _ => true
  | .ok _ => false

instance decEqExcept {ε α : Type} [DecidableEq ε] [DecidableEq α] :
    DecidableEq (Except ε α) := fun a b =>
  match a, b with
  | .error x, .error y =>
    if h : x = y then .isTrue (by rw [h])
    else .isFalse (by intro hc; cases hc; exact h rfl)
  | .ok x, .ok y =>
    if h : x = y then .isTrue (by rw [h])
    else .isFalse (by intro hc; cases hc; exact h rfl)
  | .error _, .ok _ => .isFalse (by intro hc; cases hc)
  | .ok _, .error _ => .isFalse (by intro hc; cases hc)

/-! ## Theorems -/

/-! ### Case-variance of the email regex

`Char.toLower` maps nothing onto `@`, `.` or a `\s` code point except
those characters themselves, so the regex accepts a string iff it
accepts any case variant of it. -/

theorem string_eq_iff_data {s t : String} : s = t ↔ s.data = t.data :=
  ⟨congrArg String.data, fun h => by cases s; cases t; exact congrArg String.mk h⟩

theorem char_eq_iff_toNat {a b : Char} : a = b ↔ a.toNat = b.toNat := by
  constructor
  · rintro rfl; rfl
  · intro h
    apply Char.eq_of_val_eq
    apply UInt32.eq_of_toBitVec_eq
    exact BitVec.eq_of_toNat_eq h

theorem toNat_ofNat_valid {n : Nat} (h : n < 0xd800) : (Char.ofNat n).toNat = n := by
  have hv : n.isValidChar := Or.inl h
  simp only [Char.ofNat, dif_pos hv, Char.ofNatAux, Char.toNat, UInt32.toNat]
  simp

/-- Either `toLower` fixes the character or the character is an ASCII
capital and `toLower` adds 32 to its code point. -/
theorem toLower_cases (c : Char) :
    (65 ≤ c.toNat ∧ c.toNat ≤ 90 ∧ c.toLower.toNat = c.toNat + 32) ∨
    (¬(65 ≤ c.toNat ∧ c.toNat ≤ 90) ∧ c.toLower = c) := by
  by_cases h : c.toNat ≥ 65 ∧ c.toNat ≤ 90
  · left
    refine ⟨h.1, h.2, ?_⟩
    simp only [Char.toLower, if_pos h]
    exact toNat_ofNat_valid (by omega)
  · right
    exact ⟨h, by simp only [Char.toLower, if_neg h]⟩

/-- ASCII letters are in the `[^\s@]` class. -/
theorem okEmailChar_of_letter {c : Char} (h1 : 65 ≤ c.toNat) (h2 : c.toNat ≤ 122) :
    okEmailChar c = true := by
  have hat : c ≠ '@' := fun he => by
    rw [char_eq_iff_toNat] at he
    simp only [show ('@').toNat = 64 from rfl] at he
    omega
  simp only [okEmailChar, isJsSpace, Bool.and_eq_true, Bool.not_eq_true',
    Bool.or_eq_false_iff, decide_eq_false_iff_not, ne_eq, hat, not_false_eq_true,
    decide_eq_true_eq, Bool.and_eq_false_iff, decide_eq_false_iff_not, and_true]
  omega

theorem lowEq_okEmailChar {a b : Char} (h : lowEq a b) :
    okEmailChar a = okEmailChar b := by
  rcases toLower_cases a with ⟨ha1, ha2, ha3⟩ | ⟨_, ha⟩ <;>
    rcases toLower_cases b with ⟨hb1, hb2, hb3⟩ | ⟨_, hb⟩
  · rw [okEmailChar_of_letter ha1 (by omega), okEmailChar_of_letter hb1 (by omega)]
  · -- b is fixed, a is a capital: b = a.toLower has code a.toNat + 32
    have hbn : b.toNat = a.toNat + 32 := by
      rw [← hb, ← h]; exact ha3
    rw [okEmailChar_of_letter ha1 (by omega), okEmailChar_of_letter (by omega) (by omega : b.toNat ≤ 122)]
  · have han : a.toNat = b.toNat + 32 := by
      rw [← ha, h]; exact hb3
    rw [okEmailChar_of_letter (by omega) (by omega : a.toNat ≤ 122),
      okEmailChar_of_letter hb1 (by omega)]
  · have : a = b := by rw [← ha, ← hb, h]
    rw [this]

theorem lowEq_at_iff {a b : Char} (h : lowEq a b) : a = '@' ↔ b = '@' := by
  rcases toLower_cases a with ⟨ha1, ha2, ha3⟩ | ⟨_, ha⟩ <;>
    rcases toLower_cases b with ⟨hb1, hb2, hb3⟩ | ⟨_, hb⟩
  · constructor <;> intro he <;> rw [char_eq_iff_toNat] at he ⊢ <;>
      simp only [show ('@').toNat = 64 from rfl] at he ⊢ <;> omega
  · have hbn : b.toNat = a.toNat + 32 := by rw [← hb, ← h]; exact ha3
    constructor <;> intro he <;> rw [char_eq_iff_toNat] at he ⊢ <;>
      simp only [show ('@').toNat = 64 from rfl] at he ⊢ <;> omega
  · have han : a.toNat = b.toNat + 32 := by rw [← ha, h]; exact hb3
    constructor <;> intro he <;> rw [char_eq_iff_toNat] at he ⊢ <;>
      simp only [show ('@').toNat = 64 from rfl] at he ⊢ <;> omega
  · have : a = b := by rw [← ha, ← hb, h]
    rw [this]

theorem lowEq_dot_iff {a b : Char} (h : lowEq a b) : a = '.' ↔ b = '.' := by
  rcases toLower_cases a with ⟨ha1, ha2, ha3⟩ | ⟨_, ha⟩ <;>
    rcases toLower_cases b with ⟨hb1, hb2, hb3⟩ | ⟨_, hb⟩
  · constructor <;> intro he <;> rw [char_eq_iff_toNat] at he ⊢ <;>
      simp only [show ('.').toNat = 46 from rfl] at he ⊢ <;> omega
  · have hbn : b.toNat = a.toNat + 32 := by rw [← hb, ← h]; exact ha3
    constructor <;> intro he <;> rw [char_eq_iff_toNat] at he ⊢ <;>
      simp only [show ('.').toNat = 46 from rfl] at he ⊢ <;> omega
  · have han : a.toNat = b.toNat + 32 := by rw [← ha, h]; exact hb3
    constructor <;> intro he <;> rw [char_eq_iff_toNat] at he ⊢ <;>
      simp only [show ('.').toNat = 46 from rfl] at he ⊢ <;> omega
  · have : a = b := by rw [← ha, ← hb, h]
    rw [this]

theorem forall2_lowEq_of_map_eq :
    ∀ {l₁ l₂ : List Char}, l₁.map Char.toLower = l₂.map Char.toLower →
      List.Forall₂ lowEq l₁ l₂ := by
  intro l₁
  induction l₁ with
  | nil => intro l₂ h; cases l₂ with
    | nil => exact .nil
    | cons b bs => simp at h
  | cons a as ih =>
    intro l₂ h
    cases l₂ with
    | nil => simp at h
    | cons b bs =>
      simp only [List.map_cons, List.cons.injEq] at h
      exact .cons h.1 (ih h.2)

theorem dotNotLast_lowEq :
    ∀ {l₁ l₂ : List Char}, List.Forall₂ lowEq l₁ l₂ →
      dotNotLast l₁ = dotNotLast l₂ := by
  intro l₁
  induction l₁ with
  | nil => intro l₂ h; cases h; rfl
  | cons a as ih =>
    intro l₂ h
    cases h with
    | cons hab htail =>
      rename_i b bs
      cases as with
      | nil => cases htail; rfl
      | cons a2 as2 =>
        cases htail with
        | cons hab2 htail2 =>
          rename_i b2 bs2
          simp only [dotNotLast]
          rw [ih (List.Forall₂.cons hab2 htail2)]
          have := lowEq_dot_iff hab
          by_cases hd : a = '.'
          · simp [hd, this.mp hd]
          · have : b ≠ '.' := fun hb => hd (this.mpr hb)
            simp [hd, this]

theorem all_okEmailChar_lowEq :
    ∀ {l₁ l₂ : List Char}, List.Forall₂ lowEq l₁ l₂ →
      l₁.all okEmailChar = l₂.all okEmailChar := by
  intro l₁
  induction l₁ with
  | nil => intro l₂ h; cases h; rfl
  | cons a as ih =>
    intro l₂ h
    cases h with
    | cons hab htail =>
      simp only [List.all_cons]
      rw [lowEq_okEmailChar hab, ih htail]

theorem domainOk_lowEq {l₁ l₂ : List Char} (h : List.Forall₂ lowEq l₁ l₂) :
    domainOk l₁ = domainOk l₂ := by
  cases h with
  | nil => rfl
  | cons hab htail =>
    simp only [domainOk]
    rw [all_okEmailChar_lowEq (List.Forall₂.cons hab htail), dotNotLast_lowEq htail]

theorem eatLocalPart_lowEq :
    ∀ {l₁ l₂ : List Char}, List.Forall₂ lowEq l₁ l₂ →
      (eatLocalPart l₁ = none ∧ eatLocalPart l₂ = none) ∨
      (∃ r₁ r₂, eatLocalPart l₁ = some r₁ ∧ eatLocalPart l₂ = some r₂ ∧
        List.Forall₂ lowEq r₁ r₂) := by
  intro l₁
  induction l₁ with
  | nil => intro l₂ h; cases h; exact .inl ⟨rfl, rfl⟩
  | cons a as ih =>
    intro l₂ h
    cases h with
    | cons hab htail =>
      rename_i b bs
      cases as with
      | nil =>
        cases htail
        exact .inl ⟨rfl, rfl⟩
      | cons a2 as2 =>
        cases htail with
        | cons hab2 htail2 =>
          rename_i b2 bs2
          by_cases hok : okEmailChar a = true
          · have hokb : okEmailChar b = true := (lowEq_okEmailChar hab) ▸ hok
            by_cases hat : a2 = '@'
            · have hbt : b2 = '@' := (lowEq_at_iff hab2).mp hat
              exact .inr ⟨as2, bs2,
                by simp [eatLocalPart, hok, hat],
                by simp [eatLocalPart, hokb, hbt], htail2⟩
            · have hbt : b2 ≠ '@' := fun hb => hat ((lowEq_at_iff hab2).mpr hb)
              have hrec := ih (List.Forall₂.cons hab2 htail2)
              rcases hrec with ⟨h1, h2⟩ | ⟨r₁, r₂, h1, h2, h3⟩
              · exact .inl ⟨by simp [eatLocalPart, hok, hat, h1],
                  by simp [eatLocalPart, hokb, hbt, h2]⟩
              · exact .inr ⟨r₁, r₂, by simp [eatLocalPart, hok, hat, h1],
                  by simp [eatLocalPart, hokb, hbt, h2], h3⟩
          · have hokb : okEmailChar b ≠ true := fun hb => hok ((lowEq_okEmailChar hab) ▸ hb)
            exact .inl ⟨by simp [eatLocalPart, hok], by simp [eatLocalPart, hokb]⟩

/-- The email regex is insensitive to letter case: two strings with the
same `toLowerCase` image are accepted or rejected together. -/
theorem validEmail_lowEq {e₁ e₂ : String} (h : jsToLower e₁ = jsToLower e₂) :
    validEmail e₁ = validEmail e₂ := by
  have hd : e₁.data.map Char.toLower = e₂.data.map Char.toLower := by
    have := string_eq_iff_data.mp h
    simpa [jsToLower] using this
  have hf := forall2_lowEq_of_map_eq hd
  rcases eatLocalPart_lowEq hf with ⟨h1, h2⟩ | ⟨r₁, r₂, h1, h2, h3⟩
  · simp [validEmail, h1, h2]
  · simp [validEmail, h1, h2, domainOk_lowEq h3]

theorem jsToLower_empty_iff {s : String} : jsToLower s = "" ↔ s = "" := by
  rw [string_eq_iff_data, string_eq_iff_data]
  show s.data.map Char.toLower = ([] : List Char) ↔ s.data = []
  simp

theorem evalClauses_eq_compile (cs : List Constraint) (o : Obj) :
    evalClauses cs o = (Query.mk cs 0 none |> compile).matches o := by
  induction cs with
  | nil => rfl
  | cons c rest ih =>
    simp only [evalClauses, compile, List.foldr_cons, Predicate.matches] at ih ⊢
    by_cases h : evalC c o
    · simp [h, ih]
    · simp [Bool.of_not_eq_true h]

/-- Schema evolution only appends bindings for names that were absent,
so an existing registration is never rewritten. -/
theorem lookupType_append_fresh (sch : Schema) (g : String) (u : FieldType)
    (f : String) (t : FieldType) (h : lookupType sch f = some t) :
    lookupType (sch ++ [(g, u)]) f = some t := by
  simp only [lookupType, List.find?_append] at h ⊢
  cases hf : sch.find? (fun kv => kv.1 = f) with
  | none => rw [hf] at h; simp at h
  | some kv => rw [hf] at h; simpa using h

/-- If `validateWrite` succeeds then every written field whose name was
already registered carried a value of the registered type. -/
theorem validateWrite_ok_compat :
    ∀ (fields : List (String × Value)) (sch sch2 : Schema),
      validateWrite sch fields = .ok sch2 →
      ∀ f v t, (f, v) ∈ fields → lookupType sch f = some t →
        typeOfValue v = t := by
  intro fields
  induction fields with
  | nil => intro sch sch2 _ f v t hmem; simp at hmem
  | cons fv rest ih =>
    intro sch sch2 hok f v t hmem hlk
    obtain ⟨g, w⟩ := fv
    simp only [validateWrite] at hok
    rcases List.mem_cons.mp hmem with heq | hmem2
    · obtain ⟨rfl, rfl⟩ := Prod.mk.injEq .. ▸ heq
      simp only [hlk] at hok
      by_cases hty : typeOfValue v = t
      · exact hty
      · rw [if_neg hty] at hok; cases hok
    · cases hgl : lookupType sch g with
      | some tg =>
        simp only [hgl] at hok
        by_cases hty : typeOfValue w = tg
        · rw [if_pos hty] at hok
          exact ih sch sch2 hok f v t hmem2 hlk
        · rw [if_neg hty] at hok; cases hok
      | none =>
        simp only [hgl] at hok
        exact ih _ sch2 hok f v t hmem2
          (lookupType_append_fresh sch g (typeOfValue w) f t hlk)

/-- A write containing a value incompatible with a registered field type
cannot validate; since `SchemaConflict` is the only schema error, the
result is exactly that error. -/
theorem validateWrite_conflict (fields : List (String × Value)) (sch : Schema)
    (f : String) (v : Value) (t : FieldType)
    (hmem : (f, v) ∈ fields) (hlk : lookupType sch f = some t)
    (hty : typeOfValue v ≠ t) :
    validateWrite sch fields = .error .SchemaConflict := by
  cases hres : validateWrite sch fields with
  | ok sch2 =>
    exact absurd (validateWrite_ok_compat fields sch sch2 hres f v t hmem hlk) hty
  | error e => cases e; rfl

theorem find?_map_keyKeep (o : Obj) (g : String) (v : Value) (k : String)
    (hne : g ≠ k) :
    (o.map (fun kv => if kv.1 = g then (g, v) else kv)).find? (fun kv => kv.1 = k) =
      o.find? (fun kv => kv.1 = k) := by
  induction o with
  | nil => rfl
  | cons kv rest ih =>
    simp only [List.map_cons]
    by_cases hkg : kv.1 = g
    · rw [if_pos hkg]
      rw [List.find?_cons_of_neg _ (by simp [hne])]
      rw [List.find?_cons_of_neg _ (by simp [hkg, hne])]
      exact ih
    · rw [if_neg hkg]
      by_cases hk : kv.1 = k
      · rw [List.find?_cons_of_pos _ (by simp [hk]),
          List.find?_cons_of_pos _ (by simp [hk])]
      · rw [List.find?_cons_of_neg _ (by simp [hk]),
          List.find?_cons_of_neg _ (by simp [hk])]
        exact ih

/-- Writing one field never disturbs a differently-named field. -/
theorem getField_setField_ne (o : Obj) (g : String) (v : Value) (k : String)
    (hne : g ≠ k) : getField (setField o g v) k = getField o k := by
  simp only [setField, getField]
  by_cases hmem : (o.find? (fun kv => kv.1 = g)).isSome
  · rw [if_pos hmem, find?_map_keyKeep o g v k hne]
  · rw [if_neg hmem]
    rw [List.find?_append]
    cases hf : o.find? (fun kv => kv.1 = k) with
    | some kv => simp
    | none =>
      simp [hne]

/-- A field map filtered on a key predicate has no binding for an
excluded key. -/
theorem getField_filter_none (l : Obj) (k : String)
    (p : String × Value → Bool) (hp : ∀ kv : String × Value, kv.1 = k → p kv = false) :
    getField (l.filter p) k = none := by
  induction l with
  | nil => rfl
  | cons kv rest ih =>
    simp only [List.filter_cons]
    by_cases hk : p kv = true
    · rw [if_pos hk]
      have hne : ¬(kv.1 = k) := fun he => by rw [hp kv he] at hk; cases hk
      simp only [getField]
      rw [List.find?_cons_of_neg _ (by simp [hne])]
      exact ih
    · rw [if_neg hk]
      exact ih

/-- A patch mentioning no binding for `k` leaves the `k` field alone. -/
theorem getField_applyPatch_absent (patch : Obj) (fields : Obj) (k : String)
    (hp : ∀ kv ∈ patch, kv.1 ≠ k) :
    getField (applyPatch patch fields) k = getField fields k := by
  induction patch generalizing fields with
  | nil => rfl
  | cons kv rest ih =>
    simp only [applyPatch, List.foldl_cons] at ih ⊢
    rw [ih (setField fields kv.1 kv.2) (fun kv2 hm => hp kv2 (List.mem_cons_of_mem _ hm))]
    exact getField_setField_ne fields kv.1 kv.2 k (hp kv (List.mem_cons_self _ _))

theorem lookupDoc_mapUpdate (docs : List (Nat × Obj)) (j : Nat) (o2 : Obj)
    (id : Nat) (hne : j ≠ id) :
    lookupDoc (docs.map (fun p => if p.1 = j then (j, o2) else p)) id =
      lookupDoc docs id := by
  induction docs with
  | nil => rfl
  | cons p rest ih =>
    simp only [List.map_cons]
    by_cases hpj : p.1 = j
    · rw [if_pos hpj]
      simp only [lookupDoc] at ih ⊢
      rw [List.find?_cons_of_neg _ (by simp [hne])]
      rw [List.find?_cons_of_neg _ (by simp [hpj, hne])]
      exact ih
    · rw [if_neg hpj]
      by_cases hpi : p.1 = id
      · simp only [lookupDoc]
        rw [List.find?_cons_of_pos _ (by simp [hpi]),
          List.find?_cons_of_pos _ (by simp [hpi])]
      · simp only [lookupDoc] at ih ⊢
        rw [List.find?_cons_of_neg _ (by simp [hpi]),
          List.find?_cons_of_neg _ (by simp [hpi])]
        exact ih

theorem lookupDoc_filter_none (docs : List (Nat × Obj)) (id : Nat)
    (q : Nat × Obj → Bool) (h : lookupDoc docs id = none) :
    lookupDoc (docs.filter q) id = none := by
  induction docs with
  | nil => rfl
  | cons p rest ih =>
    simp only [lookupDoc] at h ih ⊢
    by_cases hpi : p.1 = id
    · rw [List.find?_cons_of_pos _ (by simp [hpi])] at h
      simp at h
    · rw [List.find?_cons_of_neg _ (by simp [hpi])] at h
      simp only [List.filter_cons]
      by_cases hq : q p = true
      · rw [if_pos hq]
        rw [List.find?_cons_of_neg _ (by simp [hpi])]
        exact ih h
      · rw [if_neg hq]
        exact ih h

theorem lookupDoc_erase_self (docs : List (Nat × Obj)) (id : Nat) :
    lookupDoc (docs.filter (fun p => p.1 ≠ id)) id = none := by
  induction docs with
  | nil => rfl
  | cons p rest ih =>
    simp only [List.filter_cons]
    by_cases hpi : p.1 = id
    · rw [if_neg (by simp [hpi])]
      exact ih
    · rw [if_pos (by simp [hpi])]
      simp only [lookupDoc] at ih ⊢
      rw [List.find?_cons_of_neg _ (by simp [hpi])]
      exact ih

/-- Once an identifier is absent and below the allocator, no change in
the rest of the feed ever carries it again (identifiers are fresh, no
tombstones are kept). -/
theorem feed_no_id (cls : String) :
    ∀ (ms : List Mutation) (st : StoreSt) (id : Nat),
      id < st.nextId → lookupDoc st.docs id = none →
      ∀ ch ∈ feedOf cls st ms, ch.objectId ≠ id := by
  intro ms
  induction ms with
  | nil => intro st id _ _ ch hch; simp [feedOf] at hch
  | cons m rest ih =>
    intro st id hlt habs ch hch
    simp only [feedOf, List.mem_append] at hch
    cases m with
    | mCreate fields =>
      simp only [stepStore] at hch
      rcases hch with hhd | htl
      · simp only [Option.toList_some, List.mem_singleton] at hhd
        subst hhd
        simp only
        omega
      · refine ih ⟨st.docs ++ [(st.nextId, fields)], st.nextId + 1⟩ id
          (by simp only; omega) ?_ ch htl
        have hne : st.nextId ≠ id := by omega
        have hf : st.docs.find? (fun p => p.1 = id) = none := by
          simpa [lookupDoc] using habs
        simp [lookupDoc, List.find?_append, hf, hne]
    | mUpdate j patch =>
      simp only [stepStore] at hch
      cases hj : lookupDoc st.docs j with
      | none =>
        rw [hj] at hch
        simp only [Option.toList_none, List.nil_append] at hch
        rcases hch with hhd | htl
        · simp at hhd
        · exact ih st id hlt habs ch htl
      | some o =>
        have hne : j ≠ id := fun he => by rw [he, habs] at hj; cases hj
        rw [hj] at hch
        simp only [Option.toList_some] at hch
        rcases hch with hhd | htl
        · rw [List.mem_singleton] at hhd
          subst hhd
          exact hne
        · refine ih ⟨st.docs.map (fun p => if p.1 = j then (j, applyPatch patch o) else p),
            st.nextId⟩ id hlt ?_ ch htl
          rw [show (⟨st.docs.map (fun p => if p.1 = j then (j, applyPatch patch o) else p),
            st.nextId⟩ : StoreSt).docs =
            st.docs.map (fun p => if p.1 = j then (j, applyPatch patch o) else p) from rfl]
          rw [lookupDoc_mapUpdate st.docs j (applyPatch patch o) id hne]
          exact habs
    | mDelete j =>
      simp only [stepStore] at hch
      cases hj : lookupDoc st.docs j with
      | none =>
        rw [hj] at hch
        simp only [Option.toList_none, List.nil_append] at hch
        rcases hch with hhd | htl
        · simp at hhd
        · exact ih st id hlt habs ch htl
      | some o =>
        have hne : j ≠ id := fun he => by rw [he, habs] at hj; cases hj
        rw [hj] at hch
        simp only [Option.toList_some] at hch
        rcases hch with hhd | htl
        · rw [List.mem_singleton] at hhd
          subst hhd
          exact hne
        · refine ih ⟨st.docs.filter (fun p => p.1 ≠ j), st.nextId⟩ id hlt ?_ ch htl
          exact lookupDoc_filter_none st.docs id _ habs

/-- A feed none of whose changes carry `id` produces no event for `id`. -/
theorem eventsFor_no_id (sub : Subscription) (id : Nat) :
    ∀ feed : List Change, (∀ ch ∈ feed, ch.objectId ≠ id) →
      (eventsFor sub feed).filter (fun e => e.1 = id) = [] := by
  intro feed
  induction feed with
  | nil => intro _; rfl
  | cons ch rest ih =>
    intro h
    have hhd := h ch (List.mem_cons_self _ _)
    have htl := fun c hc => h c (List.mem_cons_of_mem _ hc)
    simp only [eventsFor, List.filterMap_cons]
    cases hcl : classify sub ch with
    | none => exact ih htl
    | some e =>
      simp only [Option.map_some', List.filter_cons]
      rw [if_neg (by simp [hhd])]
      exact ih htl

/-! ## Claim theorems -/

/-- C1: for every compiled query `Q` and stored object set `S`, the
result set of `find(Q)` over `S` (modulo pagination, i.e. with zero
skip and no limit) is exactly the objects of `S` on which
`Predicate(Q).matches` is true, and the clause evaluation used by the
store coincides pointwise with the compiled predicate used by the live
query hub — the evaluator behaves identically for both callers. -/
theorem claim_C1_find_refines_matches (q : Query) (store : List Obj) :
    find store ⟨q.clauses, 0, none⟩ =
      store.filter (fun o => (compile q).matches o) ∧
    ∀ o : Obj, evalClauses q.clauses o = (compile q).matches o := by
  have hpt : ∀ o : Obj, evalClauses q.clauses o = (compile q).matches o :=
    fun o => evalClauses_eq_compile q.clauses o
  constructor
  · simp only [find, paginate, List.drop_zero]
    exact List.filter_congr (fun o _ => hpt o)
  · exact hpt

/-- C2: an after-hook failure never changes the result of the
already-committed operation — the result equals what the operation
produced before the hooks ran — and every failing handler is logged
(its message lands in the dispatcher's log) rather than surfaced. -/
theorem claim_C2_after_hook_failures_isolated {Cred Res : Type}
    (doOp : Cred → Except AuthError Res) (hooks : List (Res → HookOutcome))
    (cred : Cred) :
    (runOpWithAfterHooks doOp hooks cred).1 = doOp cred ∧
    ∀ (r : Res) (m : String) (h : Res → HookOutcome),
      doOp cred = .ok r → h ∈ hooks → h r = .failure m →
      (⟨m⟩ : LogEntry) ∈ (runOpWithAfterHooks doOp hooks cred).2 := by
  constructor
  · cases hop : doOp cred with
    | error e => simp [runOpWithAfterHooks, hop]
    | ok r => simp [runOpWithAfterHooks, hop]
  · intro r m h hop hmem hfail
    simp only [runOpWithAfterHooks, hop]
    simp only [invokeAfter, List.mem_filterMap]
    exact ⟨h, hmem, by rw [hfail]⟩

/-- C2 witness: a concrete committed operation with one failing
after-hook — the operation's result is unchanged and the failure is in
the log. -/
theorem claim_C2_witness :
    (runOpWithAfterHooks (fun _ : Unit => Except.ok (42 : Nat))
      [fun _ => HookOutcome.failure "boom"] ()).1 = Except.ok 42 ∧
    (⟨"boom"⟩ : LogEntry) ∈ (runOpWithAfterHooks (fun _ : Unit => Except.ok (42 : Nat))
      [fun _ => HookOutcome.failure "boom"] ()).2 := by
  have h := claim_C2_after_hook_failures_isolated
    (fun _ : Unit => Except.ok (42 : Nat)) [fun _ => HookOutcome.failure "boom"] ()
  exact ⟨h.1, h.2 42 "boom" _ rfl (List.mem_singleton.mpr rfl) rfl⟩

/-- C3: timestamps are store-owned.  On create (even through the
`TestObject` before-save hook, which itself writes an `updatedAt`
field) both timestamps equal the store clock and no client- or
hook-supplied binding for the reserved keys survives into the stored
fields; on update `createdAt` is untouched, `updatedAt` is the store
clock, reserved keys stay absent, and the timestamps are monotonic
under a monotonic clock. -/
theorem claim_C3_store_owned_timestamps :
    (∀ (now id : Nat) (u : Option Nat) (existed : Bool) (hookNow : Nat) (f : Obj),
      (storeCreateDoc now id (testObjectBeforeSave u existed hookNow f)).createdAt = now ∧
      (storeCreateDoc now id (testObjectBeforeSave u existed hookNow f)).updatedAt = now ∧
      getField (storeCreateDoc now id (testObjectBeforeSave u existed hookNow f)).fields
        "createdAt" = none ∧
      getField (storeCreateDoc now id (testObjectBeforeSave u existed hookNow f)).fields
        "updatedAt" = none) ∧
    (∀ (now : Nat) (d : Doc) (patch : Obj),
      (storeUpdateDoc now d patch).createdAt = d.createdAt ∧
      (storeUpdateDoc now d patch).updatedAt = now ∧
      (getField d.fields "createdAt" = none →
        getField (storeUpdateDoc now d patch).fields "createdAt" = none) ∧
      (getField d.fields "updatedAt" = none →
        getField (storeUpdateDoc now d patch).fields "updatedAt" = none)) ∧
    (∀ (now : Nat) (d : Doc) (patch : Obj),
      d.createdAt ≤ d.updatedAt → d.updatedAt ≤ now →
      d.updatedAt ≤ (storeUpdateDoc now d patch).updatedAt ∧
      (storeUpdateDoc now d patch).createdAt ≤ (storeUpdateDoc now d patch).updatedAt) := by
  refine ⟨?_, ?_, ?_⟩
  · intro now id u existed hookNow f
    refine ⟨rfl, rfl, ?_, ?_⟩
    · exact getField_filter_none _ _ _
        (fun kv hk => by simp [reservedTimeKey, hk])
    · exact getField_filter_none _ _ _
        (fun kv hk => by simp [reservedTimeKey, hk])
  · intro now d patch
    refine ⟨rfl, rfl, ?_, ?_⟩
    · intro habs
      simp only [storeUpdateDoc]
      rw [getField_applyPatch_absent _ _ _ ?_]
      · exact habs
      · intro kv hkv
        rcases List.mem_filter.mp hkv with ⟨_, hres⟩
        intro hk
        rw [hk] at hres
        simp [reservedTimeKey] at hres
    · intro habs
      simp only [storeUpdateDoc]
      rw [getField_applyPatch_absent _ _ _ ?_]
      · exact habs
      · intro kv hkv
        rcases List.mem_filter.mp hkv with ⟨_, hres⟩
        intro hk
        rw [hk] at hres
        simp [reservedTimeKey] at hres
  · intro now d patch h1 h2
    exact ⟨h2, by simp only [storeUpdateDoc]; omega⟩

/-- C3 witness: a concrete create through the hook (which tries to
write `updatedAt := 77`) stores clock time 5 and keeps both reserved
keys out of the field map, and a concrete update keeps the timestamps
monotonic. -/
theorem claim_C3_witness :
    ((storeCreateDoc 5 1 (testObjectBeforeSave (some 3) false 77
        [("updatedAt", Value.vDate 77), ("x", Value.vNum 1)])).createdAt = 5 ∧
      (storeCreateDoc 5 1 (testObjectBeforeSave (some 3) false 77
        [("updatedAt", Value.vDate 77), ("x", Value.vNum 1)])).updatedAt = 5 ∧
      getField (storeCreateDoc 5 1 (testObjectBeforeSave (some 3) false 77
        [("updatedAt", Value.vDate 77), ("x", Value.vNum 1)])).fields "createdAt" = none ∧
      getField (storeCreateDoc 5 1 (testObjectBeforeSave (some 3) false 77
        [("updatedAt", Value.vDate 77), ("x", Value.vNum 1)])).fields "updatedAt" = none) ∧
    ((⟨1, [("x", Value.vNum 1)], 5, 5⟩ : Doc).updatedAt ≤
        (storeUpdateDoc 9 ⟨1, [("x", Value.vNum 1)], 5, 5⟩ [("x", Value.vNum 2)]).updatedAt ∧
      (storeUpdateDoc 9 ⟨1, [("x", Value.vNum 1)], 5, 5⟩ [("x", Value.vNum 2)]).createdAt ≤
        (storeUpdateDoc 9 ⟨1, [("x", Value.vNum 1)], 5, 5⟩ [("x", Value.vNum 2)]).updatedAt) := by
  obtain ⟨h1, _, h3⟩ := claim_C3_store_owned_timestamps
  exact ⟨h1 5 1 (some 3) false 77 [("updatedAt", Value.vDate 77), ("x", Value.vNum 1)],
    h3 9 ⟨1, [("x", Value.vNum 1)], 5, 5⟩ [("x", Value.vNum 2)]
      (by decide) (by decide)⟩

/-- C5: on a class with no prior schema, creating
`{title: "a", pinned: true}` succeeds and registers
`title:string, pinned:boolean`; and in general any write carrying a
value whose type conflicts with a registered field type fails with
`SchemaConflict` while the class state (schema and objects) is
returned unchanged — in particular the subsequent create
`{title: 5}` of the example. -/
theorem claim_C5_schema_inference_and_conflict :
    ((applyCreate ⟨[], [], 0⟩ [("title", .vStr "a"), ("pinned", .vBool true)]).2 =
        .ok 0 ∧
      (applyCreate ⟨[], [], 0⟩ [("title", .vStr "a"), ("pinned", .vBool true)]).1.schema =
        [("title", .tString), ("pinned", .tBoolean)] ∧
      (applyCreate (applyCreate ⟨[], [], 0⟩
          [("title", .vStr "a"), ("pinned", .vBool true)]).1 [("title", .vNum 5)]).2 =
        .error .SchemaConflict ∧
      (applyCreate (applyCreate ⟨[], [], 0⟩
          [("title", .vStr "a"), ("pinned", .vBool true)]).1 [("title", .vNum 5)]).1 =
        (applyCreate ⟨[], [], 0⟩ [("title", .vStr "a"), ("pinned", .vBool true)]).1) ∧
    ∀ (cs : ClassState) (fields : List (String × Value)) (f : String) (v : Value)
      (t : FieldType),
      lookupType cs.schema f = some t → (f, v) ∈ fields → typeOfValue v ≠ t →
      (applyCreate cs fields).2 = .error .SchemaConflict ∧
      (applyCreate cs fields).1 = cs := by
  constructor
  · exact ⟨rfl, rfl, rfl, rfl⟩
  · intro cs fields f v t hlk hmem hty
    have hvw := validateWrite_conflict fields cs.schema f v t hmem hlk hty
    constructor <;> simp [applyCreate, hvw]

/-- C5 witness: the incompatible-type branch at a concrete class state:
the registered `title:string` rejects `title: 5` and leaves the state
alone. -/
theorem claim_C5_witness :
    (applyCreate ⟨[("title", .tString)], [(0, [("title", Value.vStr "a")])], 1⟩
        [("title", .vNum 5)]).2 = .error .SchemaConflict ∧
    (applyCreate ⟨[("title", .tString)], [(0, [("title", Value.vStr "a")])], 1⟩
        [("title", .vNum 5)]).1 =
      ⟨[("title", .tString)], [(0, [("title", Value.vStr "a")])], 1⟩ :=
  (claim_C5_schema_inference_and_conflict).2
    ⟨[("title", .tString)], [(0, [("title", Value.vStr "a")])], 1⟩
    [("title", .vNum 5)] "title" (.vNum 5) .tString (by decide) (by decide) (by decide)

/-- C6: an operation presenting a session token whose configured
lifetime has elapsed (`expiresAt = issuedAt + sessionLength ≤ now`)
returns `AuthError(Expired)` whatever the operation body would have
done — i.e. independent of any activity — and the session table is
returned untouched: the expired session is rejected on use, not swept. -/
theorem claim_C6_expired_session_rejected_lazily {α : Type}
    (body : Session → α × List Session) (sessions : List Session)
    (tok : String) (now issuedAt : Nat) (s : Session)
    (hlk : lookupSession sessions tok = some s)
    (hexp : s.expiresAt = issuedAt + sessionLength)
    (hnow : issuedAt + sessionLength ≤ now) :
    runWithSession sessions tok now body = (.authError .Expired, sessions) := by
  have hle : s.expiresAt ≤ now := by omega
  simp [runWithSession, resolveSession, hlk, hle]

/-- C6 witness: a concrete expired session (issued at 0, presented at
the configured lifetime) is rejected with `Expired` by an operation
that would otherwise succeed, and the table still holds the session. -/
theorem claim_C6_witness :
    runWithSession [⟨"tok", 1, [], sessionLength⟩] "tok" sessionLength
      (fun _ => (7, [])) = (.authError .Expired, [⟨"tok", 1, [], sessionLength⟩]) :=
  claim_C6_expired_session_rejected_lazily (fun _ => ((7 : Nat), []))
    [⟨"tok", 1, [], sessionLength⟩] "tok" sessionLength 0 ⟨"tok", 1, [], sessionLength⟩
    (by decide) (by decide) (by decide)

/-- C4: a malformed registration payload — a missing/empty required
field, an email failing the format regex, or a too-short password — is
rejected synchronously: `registerUser` returns an error and the user
store after the call is exactly the store before it (no partial state
is written). -/
theorem claim_C4_validation_before_persistence (st : UserStore) (p : RegisterParams)
    (now : Nat)
    (hmal : (falsyStr p.firstName || falsyStr p.lastName || falsyStr p.email ||
        falsyStr p.password) = true ∨
      (∃ e, p.email = some e ∧ validEmail e = false) ∨
      (∃ pw, p.password = some pw ∧ pw.length < 6)) :
    exceptIsError (registerUser st p now).1 = true ∧
    (registerUser st p now).2 = st := by
  by_cases hg : (falsyStr p.firstName || falsyStr p.lastName || falsyStr p.email ||
      falsyStr p.password) = true
  · rw [registerUser, if_pos hg]
    exact ⟨rfl, rfl⟩
  · have hflags := hg
    simp only [Bool.or_eq_true, not_or] at hflags
    obtain ⟨⟨⟨hf1, hf2⟩, hf3⟩, hf4⟩ := hflags
    cases hpf : p.firstName with
    | none => rw [hpf] at hf1; exact absurd rfl hf1
    | some fn =>
    cases hpl : p.lastName with
    | none => rw [hpl] at hf2; exact absurd rfl hf2
    | some ln =>
    cases hpe : p.email with
    | none => rw [hpe] at hf3; exact absurd rfl hf3
    | some e =>
    cases hppw : p.password with
    | none => rw [hppw] at hf4; exact absurd rfl hf4
    | some pw =>
    rw [registerUser, if_neg hg]
    simp only [hpf, hpl, hpe, hppw]
    cases hv : validEmail e with
    | false =>
      simp only [Bool.false_eq_true, if_neg (by simp : ¬(false = true))]
      exact ⟨rfl, rfl⟩
    | true =>
      rw [if_pos rfl]
      by_cases hlen : pw.length < 6
      · rw [if_pos hlen]
        exact ⟨rfl, rfl⟩
      · exfalso
        rcases hmal with h1 | ⟨e2, he2, hve2⟩ | ⟨pw2, hpw2, hlen2⟩
        · exact hg h1
        · rw [hpe] at he2
          cases he2
          rw [hv] at hve2
          cases hve2
        · rw [hppw] at hpw2
          cases hpw2
          exact hlen hlen2

/-- C4 witness: a registration missing `firstName` fails and leaves the
empty store untouched. -/
theorem claim_C4_witness :
    exceptIsError (registerUser ⟨[], 1, 0⟩
      ⟨none, some "Lee", some "a@b.c", none, some "secret1"⟩ 0).1 = true ∧
    (registerUser ⟨[], 1, 0⟩
      ⟨none, some "Lee", some "a@b.c", none, some "secret1"⟩ 0).2 = ⟨[], 1, 0⟩ :=
  claim_C4_validation_before_persistence ⟨[], 1, 0⟩
    ⟨none, some "Lee", some "a@b.c", none, some "secret1"⟩ 0 (Or.inl (by decide))

/-- C9: a successful `updateUserProfile` call changes nothing besides
`firstName`, `lastName`, `phone` and `displayName`; each of the first
three moves only when its parameter was supplied (to the trimmed
value), and `displayName` is recomputed exactly when `firstName` or
`lastName` was supplied. -/
theorem claim_C9_update_profile_frame (u : UserRec) (p : UpdateProfileParams)
    (resp : CloudResponse) (u2 : UserRec)
    (hok : updateUserProfile (some u) p = .ok (resp, u2)) :
    u2.username = u.username ∧ u2.email = u.email ∧ u2.password = u.password ∧
    u2.emailVerified = u.emailVerified ∧ u2.id = u.id ∧ u2.isActive = u.isActive ∧
    u2.registrationDate = u.registrationDate ∧ u2.lastLogin = u.lastLogin ∧
    (p.firstName = none → u2.firstName = u.firstName) ∧
    (∀ s, p.firstName = some s → u2.firstName = jsTrim s) ∧
    (p.lastName = none → u2.lastName = u.lastName) ∧
    (∀ s, p.lastName = some s → u2.lastName = jsTrim s) ∧
    (p.phone = none → u2.phone = u.phone) ∧
    (∀ s, p.phone = some s → u2.phone = some (jsTrim s)) ∧
    (p.firstName = none ∧ p.lastName = none → u2.displayName = u.displayName) ∧
    ((p.firstName.isSome ∨ p.lastName.isSome) →
      u2.displayName =
        (p.firstName.elim u.firstName jsTrim) ++ " " ++
          (p.lastName.elim u.lastName jsTrim)) := by
  have hu2 : u2 = applyProfileUpdate u p := by
    simp only [updateUserProfile, Except.ok.injEq, Prod.mk.injEq] at hok
    exact hok.2.symm
  subst hu2
  obtain ⟨pf, pl, pp⟩ := p
  cases pf <;> cases pl <;> cases pp <;>
    simp [applyProfileUpdate, Option.elim]

/-- C9 witness: a concrete update supplying only `firstName` and
`phone` — `username`, `email`, `password`, `emailVerified` and
`lastName` keep their values; `firstName`/`phone` take the trimmed
inputs and `displayName` is recomputed. -/
theorem claim_C9_witness :
    (applyProfileUpdate ⟨7, "u", "e", "p", "F", "L", "F L", none, false, true, 0, 0⟩
        ⟨some " X ", none, some "123"⟩).username = "u" ∧
    (applyProfileUpdate ⟨7, "u", "e", "p", "F", "L", "F L", none, false, true, 0, 0⟩
        ⟨some " X ", none, some "123"⟩).password = "p" ∧
    (applyProfileUpdate ⟨7, "u", "e", "p", "F", "L", "F L", none, false, true, 0, 0⟩
        ⟨some " X ", none, some "123"⟩).firstName = jsTrim " X " ∧
    (applyProfileUpdate ⟨7, "u", "e", "p", "F", "L", "F L", none, false, true, 0, 0⟩
        ⟨some " X ", none, some "123"⟩).lastName = "L" ∧
    (applyProfileUpdate ⟨7, "u", "e", "p", "F", "L", "F L", none, false, true, 0, 0⟩
        ⟨some " X ", none, some "123"⟩).phone = some (jsTrim "123") ∧
    (applyProfileUpdate ⟨7, "u", "e", "p", "F", "L", "F L", none, false, true, 0, 0⟩
        ⟨some " X ", none, some "123"⟩).displayName = jsTrim " X " ++ " " ++ "L" := by
  obtain ⟨h1, _, h3, _, _, _, _, _, _, h10, h11, _, _, h14, _, h16⟩ :=
    claim_C9_update_profile_frame ⟨7, "u", "e", "p", "F", "L", "F L", none, false, true, 0, 0⟩
      ⟨some " X ", none, some "123"⟩ _ _ rfl
  exact ⟨h1, h3, h10 " X " rfl, h11 rfl, h14 "123" rfl, by simpa using h16 (Or.inl rfl)⟩

/-- C8: the success payload of `registerUser` exposes exactly the keys
`id`, `username`, `email`, `firstName`, `lastName`, `displayName`,
`phone`, `emailVerified`, `sessionToken` — in particular no `password`
key and no credential material beyond the freshly issued session
token. -/
theorem claim_C8_register_response_keys (st : UserStore) (p : RegisterParams)
    (now : Nat) (resp : CloudResponse) (st2 : UserStore)
    (hok : registerUser st p now = (.ok resp, st2)) :
    resp.user.map Prod.fst =
      ["id", "username", "email", "firstName", "lastName", "displayName",
       "phone", "emailVerified", "sessionToken"] ∧
    "password" ∉ resp.user.map Prod.fst := by
  rw [registerUser] at hok
  simp only [parseSignUp] at hok
  repeat' split at hok
  all_goals simp at hok
  all_goals obtain ⟨hresp, hst⟩ := hok
  all_goals subst hresp
  all_goals exact ⟨rfl, by simp⟩

/-- C8 witness: a concrete successful registration carries exactly the
nine sanitized keys. -/
theorem claim_C8_witness :
    ((registerUser ⟨[], 1, 0⟩
        ⟨some "Ann", some "Lee", some "ann@example.com", none, some "secret1"⟩ 100).1.toOption.map
      (fun r => r.user.map Prod.fst)) =
      some ["id", "username", "email", "firstName", "lastName", "displayName",
            "phone", "emailVerified", "sessionToken"] := by
  have h := claim_C8_register_response_keys ⟨[], 1, 0⟩
    ⟨some "Ann", some "Lee", some "ann@example.com", none, some "secret1"⟩ 100 _ _ rfl
  have heq : (registerUser ⟨[], 1, 0⟩
      ⟨some "Ann", some "Lee", some "ann@example.com", none, some "secret1"⟩ 100).1 =
      .ok ⟨true, "User registered successfully",
        [("id", .rNum 1), ("username", .rStr "ann@example.com"),
         ("email", .rStr "ann@example.com"), ("firstName", .rStr "Ann"),
         ("lastName", .rStr "Lee"), ("displayName", .rStr "Ann Lee"),
         ("phone", .rUndef), ("emailVerified", .rBool false),
         ("sessionToken", .rStr "r:0")]⟩ := by decide
  rw [heq]
  simp only [Except.toOption, Option.map_some']
  exact congrArg some h.1

/-- C7: when a subscription's predicate (and ACL) matched an object and
the object is deleted, the subscriber receives from the delete's change
onward exactly one event for that object — a `Leave` — and, because the
identifier is never reused and no tombstone is kept, no later change of
any further mutation run can mention it; moreover each change yields at
most one event per subscription (at-most-once delivery). -/
theorem claim_C7_delete_exactly_one_leave (sub : Subscription) (cls : String)
    (st : StoreSt) (ms : List Mutation) (id : Nat) (o : Obj)
    (hwf : wfStore st) (hcls : sub.className = cls)
    (hlk : lookupDoc st.docs id = some o)
    (hpred : sub.pred o = true) (hacl : sub.allowed o = true) :
    (stepStore cls st (.mDelete id)).2 = some ⟨cls, .ckDelete, id, some o, none⟩ ∧
    (eventsFor sub (⟨cls, .ckDelete, id, some o, none⟩ ::
        feedOf cls (stepStore cls st (.mDelete id)).1 ms)).filter
      (fun ev => ev.1 = id) = [(id, .Leave)] ∧
    ∀ feed : List Change, (eventsFor sub feed).length ≤ feed.length := by
  have hstep : stepStore cls st (.mDelete id) =
      (⟨st.docs.filter (fun p => p.1 ≠ id), st.nextId⟩,
        some ⟨cls, .ckDelete, id, some o, none⟩) := by
    simp only [stepStore, hlk]
  have hId_lt : id < st.nextId := by
    simp only [lookupDoc] at hlk
    cases hfind : st.docs.find? (fun p => p.1 = id) with
    | none => rw [hfind] at hlk; cases hlk
    | some pr =>
      have hmem := List.mem_of_find?_eq_some hfind
      have hkey : pr.1 = id := by
        have := List.find?_some hfind
        simpa using this
      have := hwf pr hmem
      omega
  have habs : lookupDoc (st.docs.filter (fun p => p.1 ≠ id)) id = none :=
    lookupDoc_erase_self st.docs id
  have hnone := feed_no_id cls ms ⟨st.docs.filter (fun p => p.1 ≠ id), st.nextId⟩
    id hId_lt habs
  have hclassify : classify sub ⟨cls, .ckDelete, id, some o, none⟩ = some .Leave := by
    simp [classify, hcls, hpred, hacl]
  refine ⟨by rw [hstep], ?_, ?_⟩
  · rw [hstep]
    have htail := eventsFor_no_id sub id
      (feedOf cls ⟨st.docs.filter (fun p => p.1 ≠ id), st.nextId⟩ ms) hnone
    simp only [eventsFor, List.filterMap_cons, hclassify, Option.map_some'] at htail ⊢
    rw [List.filter_cons_of_pos (by simp)]
    rw [htail]
  · intro feed
    simp only [eventsFor]
    exact List.length_filterMap_le _ _

/-- C7 witness: a concrete pinned-note subscription — deleting the
matching object yields the single `Leave`, and later mutations
(creating and updating a fresh object) produce nothing further for the
deleted identifier. -/
theorem claim_C7_witness :
    (stepStore "TestObject" ⟨[(0, [("pinned", Value.vBool true)])], 1⟩ (.mDelete 0)).2 =
      some ⟨"TestObject", .ckDelete, 0, some [("pinned", Value.vBool true)], none⟩ ∧
    (eventsFor ⟨"TestObject", fun o => getField o "pinned" = some (.vBool true), fun _ => true⟩
        (⟨"TestObject", .ckDelete, 0, some [("pinned", Value.vBool true)], none⟩ ::
          feedOf "TestObject"
            (stepStore "TestObject" ⟨[(0, [("pinned", Value.vBool true)])], 1⟩ (.mDelete 0)).1
            [.mCreate [("pinned", Value.vBool true)],
             .mUpdate 1 [("pinned", Value.vBool false)]])).filter
      (fun ev => ev.1 = 0) = [(0, .Leave)] ∧
    (eventsFor ⟨"TestObject", fun o => getField o "pinned" = some (.vBool true), fun _ => true⟩
        [⟨"TestObject", .ckDelete, 0, some [("pinned", Value.vBool true)], none⟩]).length ≤ 1 := by
  obtain ⟨h1, h2, h3⟩ := claim_C7_delete_exactly_one_leave
    ⟨"TestObject", fun o => getField o "pinned" = some (.vBool true), fun _ => true⟩
    "TestObject" ⟨[(0, [("pinned", Value.vBool true)])], 1⟩
    [.mCreate [("pinned", Value.vBool true)], .mUpdate 1 [("pinned", Value.vBool false)]]
    0 [("pinned", Value.vBool true)]
    (by intro p hp; simp at hp; simp [hp]) rfl (by decide) (by decide) (by decide)
  exact ⟨h1, h2, h3 [⟨"TestObject", .ckDelete, 0, some [("pinned", Value.vBool true)], none⟩]⟩

/-- Logging in against a store whose last row is the freshly registered
user: the lower-cased identifier resolves to that row and the login
response's first payload entry carries its id. -/
theorem login_after_append (users : List UserRec) (nid seed : Nat) (sv : UserRec)
    (e e2 pw : String) (now2 : Nat)
    (hnone : users.find? (fun u => u.username = jsToLower e) = none)
    (husr : sv.username = jsToLower e) (hsvpw : sv.password = pw)
    (hvar : jsToLower e2 = jsToLower e)
    (hval : validEmail e = true) (he2ne : e2 ≠ "") (hpwne : pw ≠ "") :
    findUserByUsername ⟨users ++ [sv], nid, seed⟩ (jsToLower e) = some sv ∧
    (loginUser ⟨users ++ [sv], nid, seed⟩ ⟨some e2, some pw, none⟩ now2).1.toOption.map
      (fun r => r.user.head?) = some (some ("id", RespVal.rNum sv.id)) := by
  have hfind : findUserByUsername ⟨users ++ [sv], nid, seed⟩ (jsToLower e) = some sv := by
    simp only [findUserByUsername, List.find?_append, hnone, Option.none_or]
    rw [List.find?_cons_of_pos _ (by simp [husr])]
  have hval2 : validEmail e2 = true := by rw [validEmail_lowEq hvar, hval]
  have hguard : ¬((falsyStr (some e2) || falsyStr (some pw)) = true) := by
    simp [falsyStr, he2ne, hpwne]
  refine ⟨hfind, ?_⟩
  have hplog : parseLogIn ⟨users ++ [sv], nid, seed⟩ (jsToLower e2) pw =
      (.ok (sv, mkSessionToken seed), ⟨users ++ [sv], nid, seed + 1⟩) := by
    rw [hvar]
    simp [parseLogIn, hfind, hsvpw]
  rw [loginUser, if_neg hguard]
  simp [hval2, hplog, Except.toOption]

/-- C10: a successful registration with email `e` stores the account
under username and email both equal to the lower-cased `e` (with the
store-assigned id), and a login presenting any case variant of `e`
with the correct password resolves — via the same lower-casing — to
that very account: the login response's id entry is the registered id. -/
theorem claim_C10_lowercased_email_identity (st : UserStore) (p : RegisterParams)
    (now now2 : Nat) (resp : CloudResponse) (st2 : UserStore) (e e2 pw : String)
    (hemail : p.email = some e) (hpwp : p.password = some pw)
    (hreg : registerUser st p now = (.ok resp, st2))
    (hvar : jsToLower e2 = jsToLower e) :
    (findUserByUsername st2 (jsToLower e)).map (fun u => u.username) =
      some (jsToLower e) ∧
    (findUserByUsername st2 (jsToLower e)).map (fun u => u.email) =
      some (jsToLower e) ∧
    (findUserByUsername st2 (jsToLower e)).map (fun u => u.id) = some st.nextId ∧
    (loginUser st2 ⟨some e2, some pw, none⟩ now2).1.toOption.map
      (fun r => r.user.head?) = some (some ("id", RespVal.rNum st.nextId)) := by
  obtain ⟨pf, pl, pe, pph, ppw⟩ := p
  have hpe : pe = some e := hemail
  have hppw : ppw = some pw := hpwp
  subst hpe
  subst hppw
  rw [registerUser] at hreg
  by_cases hg : (falsyStr pf || falsyStr pl || falsyStr (some e) ||
      falsyStr (some pw)) = true
  · rw [if_pos hg] at hreg
    simp at hreg
  · rw [if_neg hg] at hreg
    simp only [Bool.or_eq_true, not_or] at hg
    obtain ⟨⟨⟨hnf, hnl⟩, hne⟩, hnpw⟩ := hg
    cases pf with
    | none => exact absurd rfl hnf
    | some fn =>
    cases pl with
    | none => exact absurd rfl hnl
    | some ln =>
    dsimp only at hreg
    cases hv : validEmail e with
    | false =>
      rw [hv] at hreg
      simp at hreg
    | true =>
      rw [hv] at hreg
      rw [if_pos rfl] at hreg
      by_cases hlen : pw.length < 6
      · rw [if_pos hlen] at hreg
        simp at hreg
      · rw [if_neg hlen] at hreg
        cases hfe : findUserByEmail st (jsToLower e) with
        | some u0 =>
          simp only [hfe] at hreg
          simp at hreg
        | none =>
          simp only [hfe, parseSignUp] at hreg
          cases hfu : findUserByUsername st (jsToLower e) with
          | some u0 =>
            simp only [hfu] at hreg
            simp at hreg
          | none =>
            simp only [hfu] at hreg
            simp only [Prod.mk.injEq, Except.ok.injEq] at hreg
            obtain ⟨hresp, hst2⟩ := hreg
            subst hst2
            have hnone : st.users.find? (fun u => u.username = jsToLower e) = none := hfu
            have he2ne : e2 ≠ "" := by
              intro h0
              rw [h0] at hvar
              have hemp : jsToLower e = "" := by rw [← hvar]; rfl
              have he0 : e = "" := jsToLower_empty_iff.mp hemp
              subst he0
              exact hne rfl
            have hpwne : pw ≠ "" := by
              intro h0
              subst h0
              exact hnpw rfl
            obtain ⟨hfind, hlog⟩ := login_after_append st.users (st.nextId + 1)
              (st.nextTokenSeed + 1)
              ⟨st.nextId, jsToLower e, jsToLower e, pw, jsTrim fn, jsTrim ln,
                jsTrim fn ++ " " ++ jsTrim ln, registerPhone pph,
                false, true, now, now⟩
              e e2 pw now2 hnone rfl rfl hvar hv he2ne hpwne
            refine ⟨?_, ?_, ?_, ?_⟩
            · exact (congrArg (Option.map (fun u => u.username)) hfind).trans rfl
            · exact (congrArg (Option.map (fun u => u.email)) hfind).trans rfl
            · exact (congrArg (Option.map (fun u => u.id)) hfind).trans rfl
            · exact hlog

/-- C10 witness: registering `Ann@Example.Com` stores the account under
`ann@example.com`, and logging in as `ANN@EXAMPLE.COM` with the right
password resolves to that account's id. -/
theorem claim_C10_witness :
    ((findUserByUsername (registerUser ⟨[], 1, 0⟩
        ⟨some "Ann", some "Lee", some "Ann@Example.Com", none, some "secret1"⟩ 100).2
        (jsToLower "Ann@Example.Com")).map (fun u => u.username) =
      some (jsToLower "Ann@Example.Com")) ∧
    ((loginUser (registerUser ⟨[], 1, 0⟩
        ⟨some "Ann", some "Lee", some "Ann@Example.Com", none, some "secret1"⟩ 100).2
        ⟨some "ANN@EXAMPLE.COM", some "secret1", none⟩ 200).1.toOption.map
      (fun r => r.user.head?)) = some (some ("id", RespVal.rNum 1)) := by
  obtain ⟨h1, _, _, h4⟩ := claim_C10_lowercased_email_identity ⟨[], 1, 0⟩
    ⟨some "Ann", some "Lee", some "Ann@Example.Com", none, some "secret1"⟩ 100 200 _ _
    "Ann@Example.Com" "ANN@EXAMPLE.COM" "secret1" rfl rfl rfl (by decide)
  exact ⟨h1, h4⟩
